import Mathlib

/-!
Shallow embedding of the `point-nd` crate.

A `PointND<T, N>` is a newtype over `[T; N]`; we embed it as a `List` whose
length plays the role of the const generic `N`.  Rust panics are embedded as
`Except PanicKind` errors, with one `PanicKind` constructor per distinct panic
site so that individual failure branches can be told apart.

The transform engine of `src/point.rs` builds its results by popping the front
of one `arrayvec::ArrayVec` and pushing onto another; we embed `ArrayVec<T, N>`
as a capacity-carrying list (`ArrayVec.cap` is the const generic `N`), with
`push` failing when full, `pop_at(0).unwrap()` failing when empty, and
`into_inner` failing unless the vector is exactly full — exactly the panic
conditions of the `arrayvec` crate as used by the source.
-/

namespace PointNd

/-- One constructor per distinct panic site reachable from the embedded code:
`capacity` for the `_check_arrvec_cap` / `extend` u32::MAX ceiling panics,
`pushFull` for `ArrayVec::push` on a full vector, `popEmpty` for
`pop_at(0).unwrap()` on an empty vector, `intoInner` for the
`arrvec_into_inner` panic in `src/utils.rs`, `zeroDim` for the historical
`PointND::new` zero-dimension panic in `src/lib.rs`, `sliceLen` for the
`from_slice` length-mismatch panic, `retainBounds` for the bounds panic in
`retain`. -/
inductive PanicKind where
  | capacity
  | pushFull
  | popEmpty
  | intoInner
  | zeroDim
  | sliceLen
  | retainBounds
  deriving DecidableEq

/-- Embedding of `arrayvec::ArrayVec<T, CAP>`: a list of elements together
with the capacity `CAP` it was created with. -/
structure ArrayVec (α : Type u) where
  cap : Nat
  data : List α
  deriving DecidableEq

/-- Embeds `ArrayVec::<T, CAP>::new()`: empty vector of the given capacity. -/
def ArrayVec.new (α : Type u) (cap : Nat) : ArrayVec α :=
  ⟨cap, []⟩

/-- Embeds `ArrayVec::from(arr)` for `arr : [T; N]`: full vector of
capacity `N`. -/
def ArrayVec.fromList (l : List α) : ArrayVec α :=
  ⟨l.length, l⟩

/-- Embeds `ArrayVec::push`: appends at the back; panics when the vector is
full. -/
def ArrayVec.push (v : ArrayVec α) (x : α) : Except PanicKind (ArrayVec α) :=
  if v.data.length < v.cap then .ok ⟨v.cap, v.data ++ [x]⟩ else .error .pushFull

/-- Embeds `ArrayVec::pop_at(0).unwrap()`: removes and returns the front
element; panics when the vector is empty. -/
def ArrayVec.popFront (v : ArrayVec α) : Except PanicKind (α × ArrayVec α) :=
  match v.data with
  | [] => .error .popEmpty
  | x :: rest => .ok (x, ⟨v.cap, rest⟩)

/-- Embeds `arrvec_into_inner` from `src/utils.rs`: `ArrayVec::into_inner`
returns the backing array only when the vector is exactly full, otherwise the
function panics. -/
def arrvec_into_inner (v : ArrayVec α) : Except PanicKind (List α) :=
  if v.data.length = v.cap then .ok v.data else .error .intoInner

/-- Embeds `ARRVEC_CAP` from `src/utils.rs`: `u32::MAX as usize`. -/
def ARRVEC_CAP : Nat := 4294967295

/-- Embeds `PointND::_check_arrvec_cap` from `src/point.rs`: panics when the
requested capacity exceeds `ARRVEC_CAP`. -/
def check_arrvec_cap (cap : Nat) : Except PanicKind Unit :=
  if cap > ARRVEC_CAP then .error .capacity else .ok ()

/-- Embeds `PointND::dims`: the number of dimensions, i.e. the length of the
backing array. -/
def dims (p : List α) : Nat :=
  p.length

/-- Embeds `PointND::into_arr`: consumes the point, returning the backing
array. -/
def into_arr (p : List α) : List α :=
  p

/-- The loop of `PointND::apply`: `for _ in 0..N { let item =
this.pop_at(0).unwrap(); arr_v.push(modifier(item)); }`, with the iteration
count as fuel. -/
def applyLoop (modifier : α → β) : Nat → ArrayVec α → ArrayVec β →
    Except PanicKind (ArrayVec β)
  | 0, _, acc => .ok acc
  | k + 1, src, acc =>
    match src.popFront with
    | .error e => .error e
    | .ok (item, src') =>
      match acc.push (modifier item) with
      | .error e => .error e
      | .ok acc' => applyLoop modifier k src' acc'

/-- Embeds `PointND::apply` from `src/point.rs` (appliers feature). -/
def apply (p : List α) (modifier : α → β) : Except PanicKind (List β) :=
  match check_arrvec_cap p.length with
  | .error e => .error e
  | .ok _ =>
    match applyLoop modifier p.length (ArrayVec.fromList p)
        (ArrayVec.new β p.length) with
    | .error e => .error e
    | .ok acc => arrvec_into_inner acc

/-- The loop of `PointND::apply_dims`: the first `Nat` argument is the current
loop index `i`, the second the remaining iteration count. -/
def applyDimsLoop (ds : List Nat) (modifier : α → α) :
    Nat → Nat → ArrayVec α → ArrayVec α → Except PanicKind (ArrayVec α)
  | _, 0, _, acc => .ok acc
  | i, k + 1, src, acc =>
    match src.popFront with
    | .error e => .error e
    | .ok (item, src') =>
      match acc.push (if i ∈ ds then modifier item else item) with
      | .error e => .error e
      | .ok acc' => applyDimsLoop ds modifier (i + 1) k src' acc'

/-- Embeds `PointND::apply_dims` from `src/point.rs` (appliers feature). -/
def apply_dims (p : List α) (ds : List Nat) (modifier : α → α) :
    Except PanicKind (List α) :=
  match check_arrvec_cap p.length with
  | .error e => .error e
  | .ok _ =>
    match applyDimsLoop ds modifier 0 p.length (ArrayVec.fromList p)
        (ArrayVec.new α p.length) with
    | .error e => .error e
    | .ok acc => arrvec_into_inner acc

/-- The loop of `PointND::apply_vals`: pops the front of `self` and of the
paired values vector, pushing `modifier a b`. -/
def applyValsLoop (modifier : α → γ → β) :
    Nat → ArrayVec α → ArrayVec γ → ArrayVec β →
    Except PanicKind (ArrayVec β)
  | 0, _, _, acc => .ok acc
  | k + 1, src, vals, acc =>
    match src.popFront with
    | .error e => .error e
    | .ok (a, src') =>
      match vals.popFront with
      | .error e => .error e
      | .ok (b, vals') =>
        match acc.push (modifier a b) with
        | .error e => .error e
        | .ok acc' => applyValsLoop modifier k src' vals' acc'

/-- Embeds `PointND::apply_vals` from `src/point.rs` (appliers feature).  The
Rust signature fixes `values : [V; N]`; the embedding takes an arbitrary list,
the type-level constraint becoming the hypothesis `values.length = p.length`
in the theorems. -/
def apply_vals (p : List α) (values : List γ) (modifier : α → γ → β) :
    Except PanicKind (List β) :=
  match check_arrvec_cap p.length with
  | .error e => .error e
  | .ok _ =>
    match applyValsLoop modifier p.length (ArrayVec.fromList p)
        (ArrayVec.fromList values) (ArrayVec.new β p.length) with
    | .error e => .error e
    | .ok acc => arrvec_into_inner acc

/-- Embeds `PointND::apply_point` from `src/point.rs`: checks the capacity
ceiling, then delegates to `apply_vals` on the other point's backing array. -/
def apply_point (p : List α) (other : List γ) (modifier : α → γ → β) :
    Except PanicKind (List β) :=
  match check_arrvec_cap p.length with
  | .error e => .error e
  | .ok _ => apply_vals p (into_arr other) modifier

/-- Embeds `PointND::extend` from `src/point.rs` (var-dims feature).  `M` is
the const-generic target length; the two `for` loops that move `self` and
then `values` into the scratch vector are instances of `applyLoop` with the
identity modifier. -/
def extend (p : List α) (values : List α) (M : Nat) :
    Except PanicKind (List α) :=
  match check_arrvec_cap p.length with
  | .error e => .error e
  | .ok _ =>
    if p.length + values.length > ARRVEC_CAP then .error .capacity
    else
      match applyLoop id p.length (ArrayVec.fromList p)
          (ArrayVec.new α M) with
      | .error e => .error e
      | .ok acc =>
        match applyLoop id values.length (ArrayVec.fromList values) acc with
        | .error e => .error e
        | .ok acc2 => arrvec_into_inner acc2

/-- Embeds `PointND::retain` from `src/point.rs` (var-dims feature).  `M` is
the const-generic result length, `d` the runtime `dims` argument; after the
bounds check the loop pops the first `d` items into a scratch vector of
capacity `M`. -/
def retain (p : List α) (M : Nat) (d : Nat) : Except PanicKind (List α) :=
  match check_arrvec_cap p.length with
  | .error e => .error e
  | .ok _ =>
    if d > p.length ∨ M > p.length then .error .retainBounds
    else
      match applyLoop id d (ArrayVec.fromList p) (ArrayVec.new α M) with
      | .error e => .error e
      | .ok acc => arrvec_into_inner acc

/-- Embeds `PointND::from_slice` from `src/point.rs`:
`slice.try_into().unwrap()` succeeds exactly when the slice length equals the
const generic `N`, copying the elements in order; the result is then wrapped
by the checkless `PointND::from`. -/
def from_slice (N : Nat) (slice : List α) : Except PanicKind (List α) :=
  if slice.length = N then .ok slice else .error .sliceLen

/-- Embeds `PointND::set_x` (`self[0] = new_value` via `DerefMut`). -/
def set_x (p : List α) (v : α) : List α :=
  p.set 0 v

/-- Embeds `PointND::set_y` (`self[1] = new_value` via `DerefMut`). -/
def set_y (p : List α) (v : α) : List α :=
  p.set 1 v

/-- Embeds `PointND::set_z` (`self[2] = new_value` via `DerefMut`). -/
def set_z (p : List α) (v : α) : List α :=
  p.set 2 v

/-- Embeds `PointND::set_w` (`self[3] = new_value` via `DerefMut`). -/
def set_w (p : List α) (v : α) : List α :=
  p.set 3 v

/-- Embeds `PointND::new` from the historical variant `src/lib.rs`: rejects
zero-dimensional points. -/
def libNew (arr : List α) : Except PanicKind (List α) :=
  if arr.length = 0 then .error .zeroDim else .ok arr

/-- The loop of the historical `PointND::apply` in `src/lib.rs`:
`for i in 0..N { arr.push(modifier(&self[i])); }` — ascending index order is
embedded as structural recursion over the backing list. -/
def libApplyLoop (modifier : α → β) :
    List α → ArrayVec β → Except PanicKind (ArrayVec β)
  | [], acc => .ok acc
  | x :: rest, acc =>
    match acc.push (modifier x) with
    | .error e => .error e
    | .ok acc' => libApplyLoop modifier rest acc'

/-- Embeds the historical `PointND::apply` from `src/lib.rs`: fills a scratch
vector, takes its backing array with the unchecked `into_inner_unchecked`, and
rebuilds the point with `PointND::new` — which panics for zero-dimensional
points. -/
def libApply (p : List α) (modifier : α → β) : Except PanicKind (List β) :=
  match libApplyLoop modifier p (ArrayVec.new β p.length) with
  | .error e => .error e
  | .ok acc => libNew acc.data

/-- Reference function used to characterise `apply_dims`: transforms exactly
the positions (counted from `i`) whose index is in `ds`. -/
def dimsMap (ds : List Nat) (modifier : α → α) : Nat → List α → List α
  | _, [] => []
  | i, x :: rest =>
    (if i ∈ ds then modifier x else x) :: dimsMap ds modifier (i + 1) rest

/-! ### Behaviour of the loops -/

theorem applyLoop_ok (modifier : α → β) :
    ∀ (k : Nat) (src : ArrayVec α) (acc : ArrayVec β),
      k ≤ src.data.length → acc.data.length + k ≤ acc.cap →
      applyLoop modifier k src acc =
        .ok ⟨acc.cap, acc.data ++ (src.data.take k).map modifier⟩
  | 0, src, acc, _, _ => by simp [applyLoop]
  | k + 1, src, acc, hsrc, hacc => by
      match hdata : src.data with
      | [] => rw [hdata] at hsrc; simp at hsrc
      | x :: rest =>
        have hlt : acc.data.length < acc.cap := by omega
        have hrest : k ≤ rest.length := by
          rw [hdata] at hsrc; simpa using hsrc
        have hpop : src.popFront = .ok (x, ⟨src.cap, rest⟩) := by
          simp [ArrayVec.popFront, hdata]
        have hpush : acc.push (modifier x) =
            .ok ⟨acc.cap, acc.data ++ [modifier x]⟩ := by
          simp [ArrayVec.push, hlt]
        have hrec := applyLoop_ok modifier k ⟨src.cap, rest⟩
          ⟨acc.cap, acc.data ++ [modifier x]⟩ hrest (by simp; omega)
        simp only [applyLoop, hpop, hpush, hrec, hdata]
        simp [List.take_succ_cons]

theorem applyLoop_pushFull (modifier : α → β) :
    ∀ (k : Nat) (src : ArrayVec α) (acc : ArrayVec β),
      k ≤ src.data.length → acc.data.length ≤ acc.cap →
      acc.cap < acc.data.length + k →
      applyLoop modifier k src acc = .error .pushFull
  | 0, _, _, _, hle, hlt => by omega
  | k + 1, src, acc, hsrc, hle, hlt => by
      match hdata : src.data with
      | [] => rw [hdata] at hsrc; simp at hsrc
      | x :: rest =>
        have hrest : k ≤ rest.length := by
          rw [hdata] at hsrc; simpa using hsrc
        have hpop : src.popFront = .ok (x, ⟨src.cap, rest⟩) := by
          simp [ArrayVec.popFront, hdata]
        by_cases hfull : acc.data.length < acc.cap
        · have hpush : acc.push (modifier x) =
              .ok ⟨acc.cap, acc.data ++ [modifier x]⟩ := by
            simp [ArrayVec.push, hfull]
          have hrec := applyLoop_pushFull modifier k ⟨src.cap, rest⟩
            ⟨acc.cap, acc.data ++ [modifier x]⟩ hrest (by simp; omega)
            (by simp; omega)
          simp only [applyLoop, hpop, hpush, hrec]
        · have hpush : acc.push (modifier x) = .error .pushFull := by
            simp [ArrayVec.push, hfull]
          simp only [applyLoop, hpop, hpush]

theorem applyDimsLoop_ok (ds : List Nat) (modifier : α → α) :
    ∀ (k i : Nat) (src acc : ArrayVec α),
      k ≤ src.data.length → acc.data.length + k ≤ acc.cap →
      applyDimsLoop ds modifier i k src acc =
        .ok ⟨acc.cap, acc.data ++ dimsMap ds modifier i (src.data.take k)⟩
  | 0, i, src, acc, _, _ => by simp [applyDimsLoop, dimsMap]
  | k + 1, i, src, acc, hsrc, hacc => by
      match hdata : src.data with
      | [] => rw [hdata] at hsrc; simp at hsrc
      | x :: rest =>
        have hlt : acc.data.length < acc.cap := by omega
        have hrest : k ≤ rest.length := by
          rw [hdata] at hsrc; simpa using hsrc
        have hpop : src.popFront = .ok (x, ⟨src.cap, rest⟩) := by
          simp [ArrayVec.popFront, hdata]
        have hpush : acc.push (if i ∈ ds then modifier x else x) =
            .ok ⟨acc.cap, acc.data ++ [if i ∈ ds then modifier x else x]⟩ := by
          simp [ArrayVec.push, hlt]
        have hrec := applyDimsLoop_ok ds modifier k (i + 1) ⟨src.cap, rest⟩
          ⟨acc.cap, acc.data ++ [if i ∈ ds then modifier x else x]⟩ hrest
          (by simp; omega)
        simp only [applyDimsLoop, hpop, hpush, hrec, hdata]
        simp [List.take_succ_cons, dimsMap]

theorem applyValsLoop_ok (modifier : α → γ → β) :
    ∀ (k : Nat) (src : ArrayVec α) (vals : ArrayVec γ) (acc : ArrayVec β),
      k ≤ src.data.length → k ≤ vals.data.length →
      acc.data.length + k ≤ acc.cap →
      applyValsLoop modifier k src vals acc =
        .ok ⟨acc.cap,
          acc.data ++ List.zipWith modifier (src.data.take k) (vals.data.take k)⟩
  | 0, src, vals, acc, _, _, _ => by simp [applyValsLoop]
  | k + 1, src, vals, acc, hsrc, hvals, hacc => by
      match hdata : src.data, hvdata : vals.data with
      | [], _ => rw [hdata] at hsrc; simp at hsrc
      | x :: rest, [] => rw [hvdata] at hvals; simp at hvals
      | x :: rest, y :: vrest =>
        have hlt : acc.data.length < acc.cap := by omega
        have hrest : k ≤ rest.length := by
          rw [hdata] at hsrc; simpa using hsrc
        have hvrest : k ≤ vrest.length := by
          rw [hvdata] at hvals; simpa using hvals
        have hpop : src.popFront = .ok (x, ⟨src.cap, rest⟩) := by
          simp [ArrayVec.popFront, hdata]
        have hvpop : vals.popFront = .ok (y, ⟨vals.cap, vrest⟩) := by
          simp [ArrayVec.popFront, hvdata]
        have hpush : acc.push (modifier x y) =
            .ok ⟨acc.cap, acc.data ++ [modifier x y]⟩ := by
          simp [ArrayVec.push, hlt]
        have hrec := applyValsLoop_ok modifier k ⟨src.cap, rest⟩
          ⟨vals.cap, vrest⟩ ⟨acc.cap, acc.data ++ [modifier x y]⟩ hrest hvrest
          (by simp; omega)
        simp only [applyValsLoop, hpop, hvpop, hpush, hrec, hdata, hvdata]
        simp [List.take_succ_cons]

theorem libApplyLoop_ok (modifier : α → β) :
    ∀ (l : List α) (acc : ArrayVec β),
      acc.data.length + l.length ≤ acc.cap →
      libApplyLoop modifier l acc = .ok ⟨acc.cap, acc.data ++ l.map modifier⟩
  | [], acc, _ => by simp [libApplyLoop]
  | x :: rest, acc, h => by
      have hlt : acc.data.length < acc.cap := by simp at h; omega
      have hpush : acc.push (modifier x) =
          .ok ⟨acc.cap, acc.data ++ [modifier x]⟩ := by
        simp [ArrayVec.push, hlt]
      have hrec := libApplyLoop_ok modifier rest
        ⟨acc.cap, acc.data ++ [modifier x]⟩ (by simp; simp at h; omega)
      simp only [libApplyLoop, hpush, hrec]
      simp

/-! ### Behaviour of the operations -/

theorem check_arrvec_cap_le {n : Nat} (h : n ≤ ARRVEC_CAP) :
    check_arrvec_cap n = .ok () := by
  unfold check_arrvec_cap
  rw [if_neg (by omega)]

theorem check_arrvec_cap_gt {n : Nat} (h : n > ARRVEC_CAP) :
    check_arrvec_cap n = .error .capacity := by
  unfold check_arrvec_cap
  rw [if_pos h]

theorem apply_ok (p : List α) (modifier : α → β) (h : p.length ≤ ARRVEC_CAP) :
    apply p modifier = .ok (p.map modifier) := by
  have h2 := applyLoop_ok modifier p.length (ArrayVec.fromList p)
    (ArrayVec.new β p.length) (by simp [ArrayVec.fromList])
    (by simp [ArrayVec.new])
  simp only [apply, check_arrvec_cap_le h, h2]
  simp [arrvec_into_inner, ArrayVec.new, ArrayVec.fromList]

theorem apply_capacity (p : List α) (modifier : α → β)
    (h : p.length > ARRVEC_CAP) :
    apply p modifier = .error .capacity := by
  simp only [apply, check_arrvec_cap_gt h]

theorem apply_dims_ok (p : List α) (ds : List Nat) (modifier : α → α)
    (h : p.length ≤ ARRVEC_CAP) :
    apply_dims p ds modifier = .ok (dimsMap ds modifier 0 p) := by
  have h2 := applyDimsLoop_ok ds modifier p.length 0 (ArrayVec.fromList p)
    (ArrayVec.new α p.length) (by simp [ArrayVec.fromList])
    (by simp [ArrayVec.new])
  simp only [apply_dims, check_arrvec_cap_le h, h2]
  have hlen : ∀ (l : List α) (i : Nat),
      (dimsMap ds modifier i l).length = l.length := by
    intro l
    induction l with
    | nil => intro i; simp [dimsMap]
    | cons x rest ih => intro i; simp [dimsMap, ih]
  simp [arrvec_into_inner, ArrayVec.new, ArrayVec.fromList, hlen]

theorem apply_dims_capacity (p : List α) (ds : List Nat) (modifier : α → α)
    (h : p.length > ARRVEC_CAP) :
    apply_dims p ds modifier = .error .capacity := by
  simp only [apply_dims, check_arrvec_cap_gt h]

theorem apply_vals_ok (p : List α) (values : List γ) (modifier : α → γ → β)
    (hlen : values.length = p.length) (h : p.length ≤ ARRVEC_CAP) :
    apply_vals p values modifier = .ok (List.zipWith modifier p values) := by
  have h2 := applyValsLoop_ok modifier p.length (ArrayVec.fromList p)
    (ArrayVec.fromList values) (ArrayVec.new β p.length)
    (by simp [ArrayVec.fromList]) (by simp [ArrayVec.fromList, hlen])
    (by simp [ArrayVec.new])
  simp only [apply_vals, check_arrvec_cap_le h, h2]
  simp [arrvec_into_inner, ArrayVec.new, ArrayVec.fromList, hlen,
    List.length_zipWith]
  rw [← hlen, List.take_length]

theorem apply_vals_capacity (p : List α) (values : List γ)
    (modifier : α → γ → β) (h : p.length > ARRVEC_CAP) :
    apply_vals p values modifier = .error .capacity := by
  simp only [apply_vals, check_arrvec_cap_gt h]

theorem extend_capacity (p : List α) (values : List α) (M : Nat)
    (h : p.length > ARRVEC_CAP) :
    extend p values M = .error .capacity := by
  simp only [extend, check_arrvec_cap_gt h]

theorem retain_capacity (p : List α) (M d : Nat) (h : p.length > ARRVEC_CAP) :
    retain p M d = .error .capacity := by
  simp only [retain, check_arrvec_cap_gt h]

theorem retain_ok (p : List α) (M d : Nat) (hd : d = M) (hM : M ≤ p.length)
    (h : p.length ≤ ARRVEC_CAP) :
    retain p M d = .ok (p.take d) := by
  subst hd
  have h2 := applyLoop_ok id d (ArrayVec.fromList p) (ArrayVec.new α d)
    (by simp [ArrayVec.fromList, hM]) (by simp [ArrayVec.new])
  simp only [retain, check_arrvec_cap_le h]
  rw [if_neg (by omega)]
  simp only [h2]
  simp [arrvec_into_inner, ArrayVec.new, ArrayVec.fromList,
    List.length_take_of_le hM]

theorem retain_err_gt (p : List α) (M d : Nat) (hd : d > p.length) :
    ∃ e, retain p M d = Except.error e := by
  by_cases h : p.length ≤ ARRVEC_CAP
  · refine ⟨.retainBounds, ?_⟩
    simp only [retain, check_arrvec_cap_le h]
    rw [if_pos (Or.inl hd)]
  · exact ⟨.capacity, retain_capacity p M d (by omega)⟩

theorem retain_err_ne (p : List α) (M d : Nat) (hne : d ≠ M) :
    ∃ e, retain p M d = Except.error e := by
  by_cases hcap : p.length ≤ ARRVEC_CAP
  · by_cases hbound : d > p.length ∨ M > p.length
    · refine ⟨.retainBounds, ?_⟩
      simp only [retain, check_arrvec_cap_le hcap]
      rw [if_pos hbound]
    · push_neg at hbound
      obtain ⟨hd, hM⟩ := hbound
      by_cases hdM : d < M
      · have h2 := applyLoop_ok id d (ArrayVec.fromList p) (ArrayVec.new α M)
          (by simp [ArrayVec.fromList]; omega) (by simp [ArrayVec.new]; omega)
        refine ⟨.intoInner, ?_⟩
        simp only [retain, check_arrvec_cap_le hcap]
        rw [if_neg (by omega)]
        simp only [h2]
        simp [arrvec_into_inner, ArrayVec.new, ArrayVec.fromList,
          List.length_take_of_le (by omega : d ≤ p.length)]
        omega
      · have h2 := applyLoop_pushFull id d (ArrayVec.fromList p)
          (ArrayVec.new α M) (by simp [ArrayVec.fromList]; omega)
          (by simp [ArrayVec.new]) (by simp [ArrayVec.new]; omega)
        refine ⟨.pushFull, ?_⟩
        simp only [retain, check_arrvec_cap_le hcap]
        rw [if_neg (by omega)]
        simp only [h2]
  · exact ⟨.capacity, retain_capacity p M d (by omega)⟩

theorem dimsMap_length (ds : List Nat) (modifier : α → α) :
    ∀ (l : List α) (i : Nat), (dimsMap ds modifier i l).length = l.length
  | [], _ => rfl
  | x :: rest, i => by
      simp [dimsMap, dimsMap_length ds modifier rest (i + 1)]

theorem dimsMap_getElem? (ds : List Nat) (modifier : α → α) :
    ∀ (l : List α) (i j : Nat),
      (dimsMap ds modifier i l)[j]? =
        Option.map (fun x => if i + j ∈ ds then modifier x else x) l[j]?
  | [], i, j => by simp [dimsMap]
  | x :: rest, i, 0 => by simp [dimsMap]
  | x :: rest, i, j + 1 => by
      simp only [dimsMap, List.getElem?_cons_succ]
      rw [dimsMap_getElem? ds modifier rest (i + 1) j]
      have hidx : i + 1 + j = i + (j + 1) := by omega
      rw [hidx]

theorem dimsMap_dedup (ds : List Nat) (modifier : α → α) :
    ∀ (l : List α) (i : Nat),
      dimsMap ds.dedup modifier i l = dimsMap ds modifier i l
  | [], _ => rfl
  | x :: rest, i => by
      simp [dimsMap, List.mem_dedup, dimsMap_dedup ds modifier rest (i + 1)]

theorem zipWith_getElem?_of (modifier : α → γ → β) :
    ∀ (l1 : List α) (l2 : List γ) (i : Nat) (a : α) (b : γ),
      l1[i]? = some a → l2[i]? = some b →
      (List.zipWith modifier l1 l2)[i]? = some (modifier a b)
  | [], _, i, a, b, h1, _ => by simp at h1
  | x :: r1, [], i, a, b, _, h2 => by simp at h2
  | x :: r1, y :: r2, 0, a, b, h1, h2 => by
      simp at h1 h2
      simp [List.zipWith, h1, h2]
  | x :: r1, y :: r2, i + 1, a, b, h1, h2 => by
      simp only [List.getElem?_cons_succ] at h1 h2
      simp only [List.zipWith, List.getElem?_cons_succ]
      exact zipWith_getElem?_of modifier r1 r2 i a b h1 h2

theorem libApply_ok (p : List α) (modifier : α → β) (h : p.length ≠ 0) :
    libApply p modifier = .ok (p.map modifier) := by
  have h2 := libApplyLoop_ok modifier p (ArrayVec.new β p.length)
    (by simp [ArrayVec.new])
  simp only [libApply, h2]
  simp [libNew, ArrayVec.new, h]

theorem set_axis_frame (p : List α) (v : α) (k : Nat) (hk : k < p.length) :
    (p.set k v).length = p.length ∧ (p.set k v)[k]? = some v ∧
      ∀ j : Nat, j ≠ k → (p.set k v)[j]? = p[j]? :=
  ⟨List.length_set p k v, List.getElem?_set_self hk,
    fun _ hj => List.getElem?_set_ne (Ne.symm hj)⟩

/-! ### Concrete scenarios

These mirror the doctests of `src/point.rs` and the concrete scenarios of the
specification, checking that the embedding computes the documented values. -/

theorem scenario_apply_chain :
    (apply ([0, 1, 2] : List Nat) (fun x => x + 2)).bind
      (fun q => apply q (fun x => x * 3)) = .ok [6, 9, 12] := rfl

theorem scenario_apply_dims :
    apply_dims ([0, 1, 2, 3, 4] : List Nat) [1, 3] (fun x => x * 2) =
      .ok [0, 2, 2, 6, 4] := rfl

theorem scenario_apply_vals :
    apply_vals ([0, 1, 2] : List Nat) [1, 3, 5] (fun a b => a + b) =
      .ok [1, 4, 7] := rfl

theorem scenario_apply_point :
    apply_point ([1, 2, 3, 4] : List Int) [0, -1, -2, -3] (fun a b => a - b) =
      .ok [1, 3, 5, 7] := rfl

theorem scenario_extend :
    extend ([0, 1] : List Nat) [2, 3] 4 = .ok [0, 1, 2, 3] := rfl

theorem scenario_retain :
    retain ([0, 1, 2, 3] : List Nat) 2 2 = .ok [0, 1] := rfl

theorem scenario_retain_bounds :
    retain ([0, 1, 2] : List Nat) 1000000 1000000 =
      .error .retainBounds := rfl

/-! ### The claims -/

/-- C1 (amended): for every point `p` whose length `N` does not exceed the
arrayvec capacity ceiling `u32::MAX`, and every modifier `f`, `p.apply(f)`
returns a point of the same length `N` whose element at every position `i`
equals `f` applied to `p`'s element at position `i` — no position is skipped,
reordered, or duplicated.  (As originally stated — for every `p` — the claim
fails: for `N > u32::MAX` the call panics, see `claim1_counterexample`.) -/
theorem claim1_thm {α β : Type} (p : List α) (modifier : α → β)
    (h : p.length ≤ ARRVEC_CAP) :
    ∃ r, apply p modifier = Except.ok r ∧ dims r = dims p ∧
      ∀ i : Nat, r[i]? = Option.map modifier p[i]? := by
  refine ⟨p.map modifier, apply_ok p modifier h, by simp [dims], ?_⟩
  intro i
  simp [List.getElem?_map]

/-- Witness for C1: the amended theorem at the concrete point `[0, 1, 2]` with
modifier `(· + 2)`. -/
theorem claim1_witness :
    ([0, 1, 2] : List Nat).length ≤ ARRVEC_CAP ∧
      ∃ r, apply ([0, 1, 2] : List Nat) (fun x => x + 2) = Except.ok r ∧
        dims r = dims ([0, 1, 2] : List Nat) ∧
        ∀ i : Nat,
          r[i]? = Option.map (fun x => x + 2) (([0, 1, 2] : List Nat))[i]? :=
  ⟨by decide, claim1_thm [0, 1, 2] (fun x => x + 2) (by decide)⟩

/-- Counterexample to C1 as stated: a point with `2^32 > u32::MAX` dimensions
is not mapped — `apply` fails the pre-flight capacity check instead of
returning a transformed point. -/
theorem claim1_counterexample :
    apply (List.replicate 4294967296 (0 : Nat)) (fun x => x) =
      Except.error PanicKind.capacity := by
  apply apply_capacity
  rw [List.length_replicate]
  decide

/-- C2 (amended): for every point `p` whose length `N` does not exceed the
arrayvec capacity ceiling, every index list `ds` and every modifier `f`,
`p.apply_dims(ds, f)` returns a point of length `N` whose element at position
`i` is `f(p[i])` when `i ∈ ds` and `p[i]` unchanged otherwise; indices `≥ N`
in `ds` are silently ignored, and duplicate indices are harmless — the result
coincides with the one for the deduplicated list, so the modifier hits each
position at most once.  (As originally stated — for every `p` — the claim
fails at `N > u32::MAX`, see `claim2_counterexample`.) -/
theorem claim2_thm {α : Type} (p : List α) (ds : List Nat) (modifier : α → α)
    (h : p.length ≤ ARRVEC_CAP) :
    ∃ r, apply_dims p ds modifier = Except.ok r ∧ dims r = dims p ∧
      (∀ i : Nat, i ∈ ds → r[i]? = Option.map modifier p[i]?) ∧
      (∀ i : Nat, i ∉ ds → r[i]? = p[i]?) ∧
      apply_dims p ds modifier = apply_dims p ds.dedup modifier := by
  refine ⟨dimsMap ds modifier 0 p, apply_dims_ok p ds modifier h,
    by simp [dims, dimsMap_length], ?_, ?_, ?_⟩
  · intro i hi
    rw [dimsMap_getElem?]
    cases hp : p[i]? <;> simp [hi]
  · intro i hi
    rw [dimsMap_getElem?]
    cases hp : p[i]? <;> simp [hi]
  · rw [apply_dims_ok p ds modifier h, apply_dims_ok p ds.dedup modifier h,
      dimsMap_dedup]

/-- Witness for C2: the amended theorem at `[0, 1, 2, 3, 4]` with selection
list `[1, 3, 3, 99]`, which contains both a duplicate and an out-of-range
index. -/
theorem claim2_witness :
    ([0, 1, 2, 3, 4] : List Nat).length ≤ ARRVEC_CAP ∧
      ∃ r, apply_dims ([0, 1, 2, 3, 4] : List Nat) [1, 3, 3, 99]
          (fun x => x * 2) = Except.ok r ∧
        dims r = dims ([0, 1, 2, 3, 4] : List Nat) ∧
        (∀ i : Nat, i ∈ ([1, 3, 3, 99] : List Nat) →
          r[i]? = Option.map (fun x => x * 2) (([0, 1, 2, 3, 4] : List Nat))[i]?) ∧
        (∀ i : Nat, i ∉ ([1, 3, 3, 99] : List Nat) →
          r[i]? = (([0, 1, 2, 3, 4] : List Nat))[i]?) ∧
        apply_dims ([0, 1, 2, 3, 4] : List Nat) [1, 3, 3, 99] (fun x => x * 2) =
          apply_dims ([0, 1, 2, 3, 4] : List Nat)
            ([1, 3, 3, 99] : List Nat).dedup (fun x => x * 2) :=
  ⟨by decide, claim2_thm [0, 1, 2, 3, 4] [1, 3, 3, 99] (fun x => x * 2)
    (by decide)⟩

/-- Counterexample to C2 as stated: on a point with `2^32` dimensions
`apply_dims` fails the capacity check instead of returning a point of the
same length. -/
theorem claim2_counterexample :
    apply_dims (List.replicate 4294967296 (0 : Nat)) [0] (fun x => x) =
      Except.error PanicKind.capacity := by
  apply apply_dims_capacity
  rw [List.length_replicate]
  decide

/-- C3 (amended): for every point `p` of length `N ≤ u32::MAX`, every values
array of the same length `N` (the Rust type system forces this equality) and
every binary modifier, `p.apply_vals(values, f)` returns a point of length `N`
whose element at each position `i` is `f(p[i], values[i])`, the point's
element being the first argument.  (As originally stated — for every `p` —
the claim fails at `N > u32::MAX`, see `claim3_counterexample`.) -/
theorem claim3_thm {α γ β : Type} (p : List α) (values : List γ)
    (modifier : α → γ → β) (hlen : values.length = p.length)
    (h : p.length ≤ ARRVEC_CAP) :
    ∃ r, apply_vals p values modifier = Except.ok r ∧ dims r = dims p ∧
      ∀ (i : Nat) (a : α) (b : γ), p[i]? = some a → values[i]? = some b →
        r[i]? = some (modifier a b) := by
  refine ⟨List.zipWith modifier p values, apply_vals_ok p values modifier hlen h,
    by simp [dims, List.length_zipWith, hlen], ?_⟩
  intro i a b h1 h2
  exact zipWith_getElem?_of modifier p values i a b h1 h2

/-- Witness for C3: the amended theorem at `[0, 1, 2]` paired with `[1, 3, 5]`
under addition. -/
theorem claim3_witness :
    ([1, 3, 5] : List Nat).length = ([0, 1, 2] : List Nat).length ∧
      ([0, 1, 2] : List Nat).length ≤ ARRVEC_CAP ∧
      ∃ r, apply_vals ([0, 1, 2] : List Nat) ([1, 3, 5] : List Nat)
          (fun a b => a + b) = Except.ok r ∧
        dims r = dims ([0, 1, 2] : List Nat) ∧
        ∀ (i : Nat) (a b : Nat), (([0, 1, 2] : List Nat))[i]? = some a →
          (([1, 3, 5] : List Nat))[i]? = some b → r[i]? = some (a + b) :=
  ⟨rfl, by decide,
    claim3_thm [0, 1, 2] [1, 3, 5] (fun a b => a + b) rfl (by decide)⟩

/-- Counterexample to C3 as stated: with `2^32`-dimensional inputs
`apply_vals` fails the capacity check instead of returning the paired
combination. -/
theorem claim3_counterexample :
    apply_vals (List.replicate 4294967296 (0 : Nat))
        (List.replicate 4294967296 (0 : Nat)) (fun a b => a + b) =
      Except.error PanicKind.capacity := by
  apply apply_vals_capacity
  rw [List.length_replicate]
  decide

/-- C4: `apply_point` returns exactly the same result as `apply_vals` applied
to the other point's backing array — the two functions are equal on all
inputs (including the over-capacity ones, where both fail with the same
capacity panic). -/
theorem claim4_thm {α γ β : Type} (p : List α) (other : List γ)
    (modifier : α → γ → β) :
    apply_point p other modifier = apply_vals p (into_arr other) modifier := by
  by_cases h : p.length ≤ ARRVEC_CAP
  · simp only [apply_point, check_arrvec_cap_le h]
  · have h2 : p.length > ARRVEC_CAP := by omega
    simp only [apply_point, check_arrvec_cap_gt h2,
      apply_vals_capacity p (into_arr other) modifier h2]

/-- C5 (amended): in the current engine (`src/point.rs`) every apply-family
operation applied to a zero-dimensional point succeeds vacuously, yielding an
empty result without invoking the modifier (the modifiers below are
arbitrary); the historical variant (`src/lib.rs`) does not satisfy this: its
`apply` rebuilds the result with `PointND::new`, which rejects zero
dimensions, so it panics at `N = 0`. -/
theorem claim5_thm {α β γ : Type} (f : α → β) (ds : List Nat) (g : α → α)
    (h2 : α → γ → β) :
    apply ([] : List α) f = Except.ok [] ∧
      apply_dims ([] : List α) ds g = Except.ok [] ∧
      apply_vals ([] : List α) ([] : List γ) h2 = Except.ok [] ∧
      apply_point ([] : List α) ([] : List γ) h2 = Except.ok [] ∧
      libApply ([] : List α) f = Except.error PanicKind.zeroDim :=
  ⟨rfl, rfl, rfl, rfl, rfl⟩

/-- Counterexample to C5 as stated: the historical `apply` of `src/lib.rs`
(cited by the claim) does not succeed on a zero-dimensional point — it hits
the `PointND::new` zero-dimension panic. -/
theorem claim5_counterexample :
    libApply ([] : List Nat) (fun x => x + 1) = Except.error PanicKind.zeroDim :=
  rfl

/-- C6: in `apply`, `apply_dims` and `apply_vals`, the `arrvec_into_inner`
panic branch is unreachable: whatever the inputs (with the values array of the
type-mandated length), the result is never that error — whenever control
reaches the conversion, the scratch vector holds exactly `N` elements. -/
theorem claim6_thm {α β γ : Type} (p : List α) (f : α → β) (ds : List Nat)
    (g : α → α) (values : List γ) (h2 : α → γ → β)
    (hlen : values.length = p.length) :
    apply p f ≠ Except.error PanicKind.intoInner ∧
      apply_dims p ds g ≠ Except.error PanicKind.intoInner ∧
      apply_vals p values h2 ≠ Except.error PanicKind.intoInner := by
  by_cases h : p.length ≤ ARRVEC_CAP
  · rw [apply_ok p f h, apply_dims_ok p ds g h, apply_vals_ok p values h2 hlen h]
    exact ⟨by simp, by simp, by simp⟩
  · have h3 : p.length > ARRVEC_CAP := by omega
    rw [apply_capacity p f h3, apply_dims_capacity p ds g h3,
      apply_vals_capacity p values h2 h3]
    exact ⟨by simp, by simp, by simp⟩

/-- Witness for C6 at concrete inputs. -/
theorem claim6_witness :
    apply ([1] : List Nat) (fun x => x + 1) ≠ Except.error PanicKind.intoInner ∧
      apply_dims ([1] : List Nat) [0] (fun x => x * 2) ≠
        Except.error PanicKind.intoInner ∧
      apply_vals ([1] : List Nat) [true] (fun a _ => a + 1) ≠
        Except.error PanicKind.intoInner :=
  claim6_thm [1] (fun x => x + 1) [0] (fun x => x * 2) [true]
    (fun a _ => a + 1) rfl

/-- C7: every transform-engine operation on a point longer than `u32::MAX`
fails with the capacity panic, and the check fires before the transform loop:
the result is the capacity error for every modifier, so no modifier is ever
invoked. -/
theorem claim7_thm {α β γ : Type} (p : List α) (h : p.length > ARRVEC_CAP) :
    (∀ f : α → β, apply p f = Except.error PanicKind.capacity) ∧
      (∀ (ds : List Nat) (g : α → α),
        apply_dims p ds g = Except.error PanicKind.capacity) ∧
      (∀ (values : List γ) (h2 : α → γ → β),
        apply_vals p values h2 = Except.error PanicKind.capacity) ∧
      (∀ (other : List γ) (h2 : α → γ → β),
        apply_point p other h2 = Except.error PanicKind.capacity) ∧
      (∀ (values : List α) (M : Nat),
        extend p values M = Except.error PanicKind.capacity) ∧
      (∀ M d : Nat, retain p M d = Except.error PanicKind.capacity) := by
  refine ⟨fun f => apply_capacity p f h, fun ds g => apply_dims_capacity p ds g h,
    fun values h2 => apply_vals_capacity p values h2 h,
    fun other h2 => ?_, fun values M => extend_capacity p values M h,
    fun M d => retain_capacity p M d h⟩
  simp only [apply_point, check_arrvec_cap_gt h]

/-- Witness for C7: a point with `2^32` dimensions, above the ceiling. -/
theorem claim7_witness :
    (List.replicate 4294967296 (0 : Nat)).length > ARRVEC_CAP ∧
      apply (List.replicate 4294967296 (0 : Nat)) (fun x => x + 1) =
        Except.error PanicKind.capacity := by
  have h : (List.replicate 4294967296 (0 : Nat)).length > ARRVEC_CAP := by
    rw [List.length_replicate]
    decide
  exact ⟨h, (@claim7_thm Nat Nat Nat _ h).1 (fun x => x + 1)⟩

/-- C8: `from_slice` succeeds exactly when the slice has length `N`, returning
the slice's elements in order (the returned backing list is the slice
itself), and fails with the length-mismatch panic for every other length. -/
theorem claim8_thm {α : Type} (N : Nat) (slice : List α) :
    (slice.length = N → from_slice N slice = Except.ok slice) ∧
      (slice.length ≠ N →
        from_slice N slice = Except.error PanicKind.sliceLen) := by
  constructor
  · intro h
    simp [from_slice, h]
  · intro h
    simp [from_slice, h]

/-- Witness for C8: a matching and a mismatching concrete slice. -/
theorem claim8_witness :
    from_slice 3 ([1, 2, 3] : List Nat) = Except.ok [1, 2, 3] ∧
      from_slice 100 ([1, 2, 3] : List Nat) = Except.error PanicKind.sliceLen :=
  ⟨(claim8_thm 3 [1, 2, 3]).1 rfl, (claim8_thm 100 [1, 2, 3]).2 (by decide)⟩

/-- C9 (amended): for every point `p` of length `N ≤ u32::MAX`, `retain`
called with runtime length `d` equal to the const-generic result length `M`,
with `M ≤ N`, returns the first `d` elements of `p` in order; the call fails
fatally whenever `d > N`, and whenever `d ≠ M`.  (As originally stated — for
every `p` — the success half fails at `N > u32::MAX`, see
`claim9_counterexample`.) -/
theorem claim9_thm {α : Type} (p : List α) (M d : Nat) :
    (p.length ≤ ARRVEC_CAP → d = M → M ≤ p.length →
      retain p M d = Except.ok (p.take d)) ∧
      (d > p.length → ∃ e, retain p M d = Except.error e) ∧
      (d ≠ M → ∃ e, retain p M d = Except.error e) :=
  ⟨fun h hd hM => retain_ok p M d hd hM h, retain_err_gt p M d,
    retain_err_ne p M d⟩

/-- Witness for C9: keeping the first two of four elements. -/
theorem claim9_witness :
    retain ([0, 1, 2, 3] : List Nat) 2 2 = Except.ok [0, 1] :=
  (claim9_thm [0, 1, 2, 3] 2 2).1 (by decide) rfl (by decide)

/-- Counterexample to C9 as stated: on a `2^32`-dimensional point, `retain 0
0` (with `new_len = M = 0 ≤ N`) fails the capacity check instead of returning
the empty prefix. -/
theorem claim9_counterexample :
    retain (List.replicate 4294967296 (0 : Nat)) 0 0 =
      Except.error PanicKind.capacity := by
  apply retain_capacity
  rw [List.length_replicate]
  decide

/-- C10: for points of dimension at most 4, each named-axis setter writes its
value only to its own position (0 for `set_x` through 3 for `set_w`): that
position afterwards holds the supplied value, every other position is
unchanged, and the dimension count is unchanged.  Each setter's clause is
guarded by the dimension bound under which the source defines it. -/
theorem claim10_thm {α : Type} (p : List α) (v : α) (_h4 : p.length ≤ 4) :
    (1 ≤ p.length → dims (set_x p v) = dims p ∧ (set_x p v)[0]? = some v ∧
      ∀ j : Nat, j ≠ 0 → (set_x p v)[j]? = p[j]?) ∧
      (2 ≤ p.length → dims (set_y p v) = dims p ∧ (set_y p v)[1]? = some v ∧
        ∀ j : Nat, j ≠ 1 → (set_y p v)[j]? = p[j]?) ∧
      (3 ≤ p.length → dims (set_z p v) = dims p ∧ (set_z p v)[2]? = some v ∧
        ∀ j : Nat, j ≠ 2 → (set_z p v)[j]? = p[j]?) ∧
      (4 ≤ p.length → dims (set_w p v) = dims p ∧ (set_w p v)[3]? = some v ∧
        ∀ j : Nat, j ≠ 3 → (set_w p v)[j]? = p[j]?) := by
  refine ⟨fun hk => ?_, fun hk => ?_, fun hk => ?_, fun hk => ?_⟩ <;>
    exact set_axis_frame p v _ (by omega)

/-- Witness for C10: `set_y` on the 4-dimensional point `[9, 8, 7, 6]`. -/
theorem claim10_witness :
    dims (set_y ([9, 8, 7, 6] : List Nat) 55) = dims ([9, 8, 7, 6] : List Nat) ∧
      (set_y ([9, 8, 7, 6] : List Nat) 55)[1]? = some 55 ∧
      (set_y ([9, 8, 7, 6] : List Nat) 55)[3]? =
        (([9, 8, 7, 6] : List Nat))[3]? := by
  have h := (claim10_thm ([9, 8, 7, 6] : List Nat) 55 (by decide)).2.1 (by decide)
  exact ⟨h.1, h.2.1, h.2.2 3 (by decide)⟩

end PointNd
